import Mathlib

/-
Verification development for the pipeline-search orchestrator in
deeppavlov/pipeline_manager/pipeline_manager.py (class PipelineManager).

The embedding models:
  - the per-candidate search loop of PipelineManager.run (target-metric
    resolution, cross-validation dispatch, best-score tracking with the -1
    sentinel, checkpoint-config saving, incremental logging);
  - the retention / cleanup pass at the end of run (promotion of the best
    pipe directory into <dataset>_best_pipe and deletion of the dataset
    checkpoint directory), over an explicit flat directory state;
  - the validation pass PipelineManager.test (dataset-reader check, mode
    check, one executor invocation per candidate).

External collaborators (train_evaluate_model_from_config, calc_cv_score,
PipeGen, Logger) are treated as oracles: each candidate record carries the
results the executor and the cross-validation scorer would return, and the
loop records the invocations it performs as an explicit event list.
Metric values are modelled as rationals; Python dictionaries keyed by
strings are modelled as association lists looked up at the first match.
-/

namespace PM

/-- Metrics dictionary of one split: metric name to value. -/
abbrev Metrics := List (String × ℚ)

/-- Results dictionary returned by the executor: split name to metrics. -/
abbrev Results := List (String × Metrics)

/-- Per-dataset best-tracker entry: best_score and best_ind
    (dataset_res[name] = dict(best_score=..., best_ind=...)). -/
abbrev BestEntry := ℚ × Option Nat

/-- The dataset_res dictionary of PipelineManager.run. -/
abbrev Tracker := List (String × BestEntry)

/-- First-match lookup in a string-keyed association list,
    modelling Python dict access. -/
def slookup {α : Type} : List (String × α) → String → Option α
  | [], _ => none
  | (k, v) :: r, key => if k = key then some v else slookup r key

/-- Update the first binding of a key, or append a fresh binding,
    modelling Python dict item assignment. -/
def aset {α : Type} : List (String × α) → String → α → List (String × α)
  | [], key, v => [(key, v)]
  | (k, w) :: r, key, v => if k = key then (key, v) :: r else (k, w) :: aset r key v

/-- Reading the target metric out of a results dictionary, following
    pipeline_manager.py lines 155-163: when the key "test" is present, only
    results["test"][target] is consulted; otherwise results["valid"][target].
    A missing dictionary key is a Python KeyError, modelled as none. -/
def readScore (target : String) (r : Results) : Option ℚ :=
  match slookup r "test" with
  | some m => slookup m target
  | none =>
    match slookup r "valid" with
    | some m => slookup m target
    | none => none

/-- Errors the orchestrator can raise. -/
inductive RunError where
  | valueError
  | keyError
  | indexError
  | configError
  deriving DecidableEq, Repr

/-- Observable external effects of the loops. -/
inductive Event where
  | execCall (toTrain toValidate : Bool)
  | cvCall (nFolds : Nat)
  | saveConfig (dataset : String) (ind : Nat)
  deriving DecidableEq, Repr

/-- One candidate pipe produced by the generator, together with the results
    the external executor and scorer would return for it. -/
structure Cand where
  dataset : String
  readerName : String
  metrics : List String
  execResult : Results
  cvScore : Metrics
  deriving DecidableEq, Repr

/-- The configuration fields of PipelineManager relevant to run and test. -/
structure RunCfg where
  mode : String
  cross_validation : Bool
  k_fold : Nat
  save_best : Bool
  target_metric : Option String
  deriving DecidableEq, Repr

/-- Final state of the run loop: resolved target metric, the dataset_res
    tracker, the external calls performed, the per-candidate logged results,
    and the error that aborted the loop, if any. -/
structure RunOut where
  target : Option String
  tracker : Tracker
  events : List Event
  logs : List (String × Results)
  error : Option RunError
  deriving DecidableEq, Repr

/-- Execution dispatch of one candidate, lines 138-149: cross-validation
    wraps the scorer output under a synthetic "test" key and is checked
    before the mode; an unsupported mode raises ValueError (none here). -/
def execPhase (cfg : RunCfg) (c : Cand) : Option (Event × Results) :=
  if cfg.cross_validation then some (Event.cvCall cfg.k_fold, [("test", c.cvScore)])
  else if cfg.mode = "train" then some (Event.execCall true true, c.execResult)
  else if cfg.mode = "evaluate" then some (Event.execCall false false, c.execResult)
  else none

/-- Best-tracking step for one candidate, lines 151-163: insert the fresh
    entry (best_score = -1, best_ind = None) when the dataset is new, then
    compare the read score by strict greater-than. Returns the tracker after
    the step and the score read, none meaning a KeyError was raised after
    the insertion already happened. The stored index is the 1-based i+1. -/
def bestPhase (target dataset : String) (i : Nat) (r : Results) (tr : Tracker) :
    Tracker × Option ℚ :=
  let tr1 := if (slookup tr dataset).isNone
    then tr ++ [(dataset, ((-1 : ℚ), (none : Option Nat)))] else tr
  match readScore target r with
  | none => (tr1, none)
  | some v =>
    let cur := (slookup tr1 dataset).getD ((-1 : ℚ), none)
    (aset tr1 dataset (if cur.1 < v then (v, some (i + 1)) else cur), some v)

/-- The candidate loop of PipelineManager.run, lines 124-174.
    Arguments after the candidate list: 0-based index of the next candidate,
    current target metric, tracker, accumulated events and logged results.
    On the first candidate an unset target metric is resolved to the first
    declared metric name (IndexError when there is none, line 128). -/
def runLoopAux (cfg : RunCfg) :
    List Cand → Nat → Option String → Tracker → List Event →
    List (String × Results) → RunOut
  | [], _, T, tr, evs, lgs => ⟨T, tr, evs, lgs, none⟩
  | c :: cs, i, T, tr, evs, lgs =>
    match (if i = 0 ∧ T = none then c.metrics.head? else T) with
    | none => ⟨none, tr, evs, lgs, some RunError.indexError⟩
    | some t =>
      match execPhase cfg c with
      | none => ⟨some t, tr, evs, lgs, some RunError.valueError⟩
      | some (ev, results) =>
        if cfg.save_best then
          match bestPhase t c.dataset i results tr with
          | (tr1, none) => ⟨some t, tr1, evs ++ [ev], lgs, some RunError.keyError⟩
          | (tr1, some _) =>
            runLoopAux cfg cs (i + 1) (some t) tr1
              (if cfg.cross_validation then evs ++ [ev]
               else evs ++ [ev, Event.saveConfig c.dataset (i + 1)])
              (lgs ++ [(c.dataset, results)])
        else
          runLoopAux cfg cs (i + 1) (some t) tr
            (if cfg.cross_validation then evs ++ [ev]
             else evs ++ [ev, Event.saveConfig c.dataset (i + 1)])
            (lgs ++ [(c.dataset, results)])

/-- The whole candidate loop of PipelineManager.run. -/
def runLoop (cfg : RunCfg) (cands : List Cand) : RunOut :=
  runLoopAux cfg cands 0 cfg.target_metric [] [] []

/-- Step equation of the loop once the target metric is resolved. -/
theorem runLoopAux_cons_eq (cfg : RunCfg) (c : Cand) (cs : List Cand) (i : Nat)
    (t : String) (tr : Tracker) (evs : List Event) (lgs : List (String × Results)) :
    runLoopAux cfg (c :: cs) i (some t) tr evs lgs =
      match execPhase cfg c with
      | none => ⟨some t, tr, evs, lgs, some RunError.valueError⟩
      | some (ev, results) =>
        if cfg.save_best then
          match bestPhase t c.dataset i results tr with
          | (tr1, none) => ⟨some t, tr1, evs ++ [ev], lgs, some RunError.keyError⟩
          | (tr1, some _) =>
            runLoopAux cfg cs (i + 1) (some t) tr1
              (if cfg.cross_validation then evs ++ [ev]
               else evs ++ [ev, Event.saveConfig c.dataset (i + 1)])
              (lgs ++ [(c.dataset, results)])
        else
          runLoopAux cfg cs (i + 1) (some t) tr
            (if cfg.cross_validation then evs ++ [ev]
             else evs ++ [ev, Event.saveConfig c.dataset (i + 1)])
            (lgs ++ [(c.dataset, results)]) := by
  have hT : ¬ (i = 0 ∧ (some t : Option String) = none) := by simp
  simp only [runLoopAux, if_neg hT]

/-- The results dictionary the loop compares for a candidate: the scorer
    output wrapped under "test" when cross-validation is on, otherwise the
    executor output. -/
def resultsOf (cfg : RunCfg) (c : Cand) : Results :=
  if cfg.cross_validation then [("test", c.cvScore)] else c.execResult

/-- The (1-based index, read score) observations the best tracker sees for
    one dataset, starting the count at i. Candidates whose score read fails
    contribute nothing (on such a candidate the loop aborts anyway). -/
def obsFrom (cfg : RunCfg) (t D : String) : List Cand → Nat → List (Nat × ℚ)
  | [], _ => []
  | c :: cs, i =>
    if c.dataset = D then
      match readScore t (resultsOf cfg c) with
      | some v => (i + 1, v) :: obsFrom cfg t D cs (i + 1)
      | none => obsFrom cfg t D cs (i + 1)
    else obsFrom cfg t D cs (i + 1)

/-- Pure per-dataset best fold: the strict greater-than update of
    (best_score, best_ind) over a list of observations. -/
def bestFold : List (Nat × ℚ) → BestEntry → BestEntry
  | [], e => e
  | (j, v) :: r, (sc, ind) => bestFold r (if sc < v then (v, some j) else (sc, ind))

/-- Whether some candidate of the list belongs to the dataset. -/
def hasDataset : List Cand → String → Bool
  | [], _ => false
  | c :: cs, D => if c.dataset = D then true else hasDataset cs D

/-- Outcome of the validation pass. -/
structure TestOut where
  events : List Event
  error : Option RunError
  deriving DecidableEq, Repr

/-- The candidate loop of PipelineManager.test, lines 218-241: the dataset
    reader name is checked first (ConfigError when it is not the basic
    classification reader), then the executor runs in the mode-dictated way
    (train: to_train and no validation; evaluate: neither), any other mode
    raising ValueError. -/
def testLoopAux (mode : String) : List Cand → List Event → TestOut
  | [], evs => ⟨evs, none⟩
  | c :: cs, evs =>
    if c.readerName = "basic_classification_reader" then
      if mode = "train" then testLoopAux mode cs (evs ++ [Event.execCall true false])
      else if mode = "evaluate" then testLoopAux mode cs (evs ++ [Event.execCall false false])
      else ⟨evs, some RunError.valueError⟩
    else ⟨evs, some RunError.configError⟩

/-- The validation pass over a candidate list. -/
def testLoop (mode : String) (cands : List Cand) : TestOut :=
  testLoopAux mode cands []

/-! Association list lemmas. -/

theorem slookup_append {α : Type} (l₁ l₂ : List (String × α)) (key : String) :
    slookup (l₁ ++ l₂) key =
      match slookup l₁ key with
      | some v => some v
      | none => slookup l₂ key := by
  induction l₁ with
  | nil => simp [slookup]
  | cons p r ih =>
    obtain ⟨k, v⟩ := p
    by_cases h : k = key
    · simp [slookup, h]
    · simp [slookup, h, ih]

theorem slookup_aset {α : Type} (l : List (String × α)) (k key : String) (v : α) :
    slookup (aset l k v) key = if k = key then some v else slookup l key := by
  induction l with
  | nil => by_cases h : k = key <;> simp [aset, slookup, h]
  | cons p r ih =>
    obtain ⟨k', w⟩ := p
    by_cases h1 : k' = k
    · subst h1
      by_cases h2 : k' = key <;> simp [aset, slookup, h2]
    · by_cases h2 : k' = key
      · subst h2
        have hk : ¬ k = k' := fun h => h1 h.symm
        simp [aset, slookup, h1, hk]
      · simp [aset, slookup, h1, h2, ih]

/-! Facts about the execution dispatch and the best-tracking step. -/

theorem execPhase_results (cfg : RunCfg) (c : Cand) (ev : Event) (r : Results)
    (h : execPhase cfg c = some (ev, r)) : r = resultsOf cfg c := by
  unfold execPhase at h
  unfold resultsOf
  split at h
  · next hcv =>
    simp only [Option.some.injEq, Prod.mk.injEq] at h
    simp [hcv, h.2.symm]
  · next hcv =>
    split at h
    · simp only [Option.some.injEq, Prod.mk.injEq] at h
      simp [hcv, h.2.symm]
    · split at h
      · simp only [Option.some.injEq, Prod.mk.injEq] at h
        simp [hcv, h.2.symm]
      · exact absurd h (by simp)

theorem bestPhase_none_read (t d : String) (i : Nat) (r : Results) (tr tr1 : Tracker)
    (h : bestPhase t d i r tr = (tr1, none)) : readScore t r = none := by
  unfold bestPhase at h
  cases hrs : readScore t r with
  | none => rfl
  | some v => rw [hrs] at h; simp at h

theorem bestPhase_some_read (t d : String) (i : Nat) (r : Results) (tr tr1 : Tracker) (v : ℚ)
    (h : bestPhase t d i r tr = (tr1, some v)) : readScore t r = some v := by
  unfold bestPhase at h
  cases hrs : readScore t r with
  | none => rw [hrs] at h; simp at h
  | some w => rw [hrs] at h; simp at h; rw [h.2]

theorem bestPhase_lookup_self (t d : String) (i : Nat) (r : Results) (tr tr1 : Tracker) (v : ℚ)
    (h : bestPhase t d i r tr = (tr1, some v)) :
    slookup tr1 d =
      some (if ((slookup tr d).getD ((-1 : ℚ), none)).1 < v then (v, some (i + 1))
            else (slookup tr d).getD ((-1 : ℚ), none)) := by
  have hrs := bestPhase_some_read t d i r tr tr1 v h
  unfold bestPhase at h
  rw [hrs] at h
  cases hL : slookup tr d with
  | none =>
    rw [hL] at h
    simp only [Option.isNone_none, if_true] at h
    have hins : slookup (tr ++ [(d, ((-1 : ℚ), (none : Option Nat)))]) d =
        some ((-1 : ℚ), (none : Option Nat)) := by
      rw [slookup_append, hL]
      simp [slookup]
    rw [hins] at h
    simp only [Option.getD_some, Prod.mk.injEq] at h
    rw [← h.1, slookup_aset, if_pos rfl]
    simp [hL]
  | some e =>
    rw [hL] at h
    simp only [Option.isNone_some, if_false, Bool.false_eq_true] at h
    rw [hL] at h
    simp only [Option.getD_some, Prod.mk.injEq] at h
    rw [← h.1, slookup_aset, if_pos rfl]
    simp [hL]

theorem bestPhase_lookup_ne (t d : String) (i : Nat) (r : Results) (tr tr1 : Tracker)
    (s : Option ℚ) (D : String) (hne : ¬ d = D) (h : bestPhase t d i r tr = (tr1, s)) :
    slookup tr1 D = slookup tr D := by
  unfold bestPhase at h
  have hins : slookup (if (slookup tr d).isNone then
      tr ++ [(d, ((-1 : ℚ), (none : Option Nat)))] else tr) D = slookup tr D := by
    cases hL : slookup tr d with
    | none =>
      simp only [hL, Option.isNone_none, if_true]
      rw [slookup_append]
      cases hD : slookup tr D with
      | none => simp [slookup, hne]
      | some e => simp
    | some e => simp [hL]
  cases hrs : readScore t r with
  | none =>
    rw [hrs] at h
    simp only [Prod.mk.injEq] at h
    rw [← h.1, hins]
  | some w =>
    rw [hrs] at h
    simp only [Prod.mk.injEq] at h
    rw [← h.1, slookup_aset, if_neg hne, hins]

/-! The pure best fold: maximum and first achiever. -/

theorem bestFold_stall : ∀ (l : List (Nat × ℚ)) (sc : ℚ) (ind : Option Nat),
    (∀ p ∈ l, p.2 ≤ sc) → bestFold l (sc, ind) = (sc, ind) := by
  intro l
  induction l with
  | nil => intro sc ind _; rfl
  | cons p r ih =>
    intro sc ind hle
    obtain ⟨j, v⟩ := p
    have hv : v ≤ sc := hle (j, v) (List.mem_cons_self _ _)
    have hnlt : ¬ sc < v := not_lt.mpr hv
    show bestFold r (if sc < v then (v, some j) else (sc, ind)) = (sc, ind)
    rw [if_neg hnlt]
    exact ih sc ind (fun p hp => hle p (List.mem_cons_of_mem _ hp))

theorem bestFold_spec : ∀ (l : List (Nat × ℚ)) (sc : ℚ) (ind : Option Nat),
    (∃ p ∈ l, sc < p.2) →
    sc < (bestFold l (sc, ind)).1 ∧
    (∀ p ∈ l, p.2 ≤ (bestFold l (sc, ind)).1) ∧
    (∃ j pre post, (bestFold l (sc, ind)).2 = some j ∧
      l = pre ++ (j, (bestFold l (sc, ind)).1) :: post ∧
      ∀ p ∈ pre, p.2 < (bestFold l (sc, ind)).1 ∨ p.2 ≤ sc) := by
  intro l
  induction l with
  | nil => intro sc ind h; obtain ⟨p, hp, _⟩ := h; exact absurd hp (List.not_mem_nil p)
  | cons q r ih =>
    intro sc ind hex
    obtain ⟨j, v⟩ := q
    by_cases hv : sc < v
    · have hstep : bestFold ((j, v) :: r) (sc, ind) = bestFold r (v, some j) := by
        show bestFold r (if sc < v then (v, some j) else (sc, ind)) = _
        rw [if_pos hv]
      rw [hstep]
      by_cases h2 : ∃ p ∈ r, v < p.2
      · obtain ⟨hlt, hub, j', pre, post, hsnd, hdec, hpre⟩ := ih v (some j) h2
        have hdec2 : (j, v) :: r =
            ((j, v) :: pre) ++ (j', (bestFold r (v, some j)).1) :: post := by
          rw [List.cons_append]
          exact congrArg (List.cons (j, v)) hdec
        refine ⟨lt_trans hv hlt, ?_, j', (j, v) :: pre, post, hsnd, hdec2, ?_⟩
        · intro p hp
          rcases List.mem_cons.mp hp with h | h
          · rw [h]; exact le_of_lt hlt
          · exact hub p h
        · intro p hp
          rcases List.mem_cons.mp hp with h | h
          · rw [h]; exact Or.inl hlt
          · rcases hpre p h with h' | h'
            · exact Or.inl h'
            · exact Or.inl (lt_of_le_of_lt h' hlt)
      · push_neg at h2
        have hstall : bestFold r (v, some j) = (v, some j) :=
          bestFold_stall r v (some j) h2
        rw [hstall]
        refine ⟨hv, ?_, j, [], r, rfl, rfl, by intro p hp; exact absurd hp (List.not_mem_nil p)⟩
        intro p hp
        rcases List.mem_cons.mp hp with h | h
        · rw [h]
        · exact h2 p h
    · have hstep : bestFold ((j, v) :: r) (sc, ind) = bestFold r (sc, ind) := by
        show bestFold r (if sc < v then (v, some j) else (sc, ind)) = _
        rw [if_neg hv]
      rw [hstep]
      have hex' : ∃ p ∈ r, sc < p.2 := by
        obtain ⟨p, hp, hlt⟩ := hex
        rcases List.mem_cons.mp hp with h | h
        · rw [h] at hlt; exact absurd hlt hv
        · exact ⟨p, h, hlt⟩
      obtain ⟨hlt, hub, j', pre, post, hsnd, hdec, hpre⟩ := ih sc ind hex'
      have hdec2 : (j, v) :: r =
          ((j, v) :: pre) ++ (j', (bestFold r (sc, ind)).1) :: post := by
        rw [List.cons_append]
        exact congrArg (List.cons (j, v)) hdec
      refine ⟨hlt, ?_, j', (j, v) :: pre, post, hsnd, hdec2, ?_⟩
      · intro p hp
        rcases List.mem_cons.mp hp with h | h
        · rw [h]
          exact le_trans (not_lt.mp hv) (le_of_lt hlt)
        · exact hub p h
      · intro p hp
        rcases List.mem_cons.mp hp with h | h
        · rw [h]; exact Or.inr (not_lt.mp hv)
        · exact hpre p h

theorem bestFold_cons (j : Nat) (v : ℚ) (r : List (Nat × ℚ)) (e : BestEntry) :
    bestFold ((j, v) :: r) e = bestFold r (if e.1 < v then (v, some j) else e) := rfl

/-! Bridge: for an error-free run with best-only retention, the tracker entry
    of a dataset is the pure best fold of its observations. -/

theorem runLoopAux_tracker (cfg : RunCfg) (t D : String) (hsb : cfg.save_best = true) :
    ∀ (cs : List Cand) (i : Nat) (tr : Tracker) (evs : List Event)
      (lgs : List (String × Results)),
      (runLoopAux cfg cs i (some t) tr evs lgs).error = none →
      slookup (runLoopAux cfg cs i (some t) tr evs lgs).tracker D =
        (if (slookup tr D).isSome = true ∨ hasDataset cs D = true then
          some (bestFold (obsFrom cfg t D cs i) ((slookup tr D).getD ((-1 : ℚ), none)))
        else none) := by
  intro cs
  induction cs with
  | nil =>
    intro i tr evs lgs _
    show slookup tr D = _
    cases hL : slookup tr D <;> simp [hasDataset, obsFrom, bestFold, hL]
  | cons c cs ih =>
    intro i tr evs lgs herr
    have hT : ¬ (i = 0 ∧ (some t : Option String) = none) := by simp
    simp only [runLoopAux, if_neg hT] at herr ⊢
    cases hex : execPhase cfg c with
    | none =>
      rw [hex] at herr
      simp at herr
    | some p =>
      obtain ⟨ev, results⟩ := p
      have hres : results = resultsOf cfg c := execPhase_results cfg c ev results hex
      rw [hex] at herr
      simp only [hsb, if_true] at herr ⊢
      cases hbp : bestPhase t c.dataset i results tr with
      | mk tr1 s =>
        rw [hbp] at herr
        cases s with
        | none =>
          simp at herr
        | some v =>
          dsimp only at herr ⊢
          have hrs : readScore t results = some v :=
            bestPhase_some_read t c.dataset i results tr tr1 v hbp
          have ihx := ih (i + 1) tr1
            (if cfg.cross_validation then evs ++ [ev]
             else evs ++ [ev, Event.saveConfig c.dataset (i + 1)])
            (lgs ++ [(c.dataset, results)]) herr
          rw [ihx]
          by_cases hd : c.dataset = D
          · have hself := bestPhase_lookup_self t c.dataset i results tr tr1 v hbp
            rw [hd] at hself
            have hobs : obsFrom cfg t D (c :: cs) i = (i + 1, v) :: obsFrom cfg t D cs (i + 1) := by
              simp only [obsFrom, if_pos hd, ← hres, hrs]
            have hhd : hasDataset (c :: cs) D = true := by
              simp [hasDataset, hd]
            rw [hobs, hhd, hself]
            simp only [Option.isSome_some, Option.getD_some, bestFold_cons]
            simp
          · have hne := bestPhase_lookup_ne t c.dataset i results tr tr1 (some v) D hd hbp
            have hobs : obsFrom cfg t D (c :: cs) i = obsFrom cfg t D cs (i + 1) := by
              cases hr : readScore t (resultsOf cfg c) <;>
                simp only [obsFrom, if_neg hd]
            have hhd : hasDataset (c :: cs) D = hasDataset cs D := by
              simp [hasDataset, hd]
            rw [hne, hobs, hhd]

theorem bestPhase_of_read_none (t d : String) (i : Nat) (r : Results) (tr : Tracker)
    (h : readScore t r = none) :
    bestPhase t d i r tr =
      ((if (slookup tr d).isNone then tr ++ [(d, ((-1 : ℚ), (none : Option Nat)))] else tr),
       none) := by
  unfold bestPhase
  rw [h]

/-- Error-free runs with best-only retention read a score from every candidate. -/
theorem runLoopAux_scored (cfg : RunCfg) (t : String) (hsb : cfg.save_best = true) :
    ∀ (cs : List Cand) (i : Nat) (tr : Tracker) (evs : List Event)
      (lgs : List (String × Results)),
      (runLoopAux cfg cs i (some t) tr evs lgs).error = none →
      ∀ c ∈ cs, readScore t (resultsOf cfg c) ≠ none := by
  intro cs
  induction cs with
  | nil =>
    intro i tr evs lgs _ c hc
    exact absurd hc (List.not_mem_nil c)
  | cons c cs ih =>
    intro i tr evs lgs herr c' hc'
    have hT : ¬ (i = 0 ∧ (some t : Option String) = none) := by simp
    simp only [runLoopAux, if_neg hT] at herr
    cases hex : execPhase cfg c with
    | none =>
      rw [hex] at herr
      simp at herr
    | some p =>
      obtain ⟨ev, results⟩ := p
      have hres : results = resultsOf cfg c := execPhase_results cfg c ev results hex
      rw [hex] at herr
      simp only [hsb, if_true] at herr
      cases hbp : bestPhase t c.dataset i results tr with
      | mk tr1 s =>
        rw [hbp] at herr
        cases s with
        | none =>
          simp at herr
        | some v =>
          dsimp only at herr
          rcases List.mem_cons.mp hc' with h | h
          · rw [h, ← hres, bestPhase_some_read t c.dataset i results tr tr1 v hbp]
            simp
          · exact ih (i + 1) tr1 _ _ herr c' h

/-- With cross-validation on, an error-free loop emits exactly one scorer call
    per candidate (with the configured fold count) and logs the scorer output
    wrapped under the synthetic test key; no other event is emitted. -/
theorem runLoopAux_cv (cfg : RunCfg) (hcv : cfg.cross_validation = true) :
    ∀ (cs : List Cand) (i : Nat) (T : Option String) (tr : Tracker) (evs : List Event)
      (lgs : List (String × Results)),
      (runLoopAux cfg cs i T tr evs lgs).error = none →
      (runLoopAux cfg cs i T tr evs lgs).events =
        evs ++ cs.map (fun _ => Event.cvCall cfg.k_fold) ∧
      (runLoopAux cfg cs i T tr evs lgs).logs =
        lgs ++ cs.map (fun c => (c.dataset, [("test", c.cvScore)])) := by
  intro cs
  induction cs with
  | nil =>
    intro i T tr evs lgs _
    constructor <;> simp [runLoopAux]
  | cons c cs ih =>
    intro i T tr evs lgs herr
    simp only [runLoopAux] at herr ⊢
    cases hT : (if i = 0 ∧ T = none then c.metrics.head? else T) with
    | none =>
      rw [hT] at herr
      simp at herr
    | some t =>
      rw [hT] at herr
      dsimp only at herr ⊢
      have hex : execPhase cfg c = some (Event.cvCall cfg.k_fold, [("test", c.cvScore)]) := by
        unfold execPhase
        rw [if_pos hcv]
      rw [hex] at herr ⊢
      cases hsb : cfg.save_best with
      | false =>
        simp only [hsb, Bool.false_eq_true, if_false, hcv, if_true] at herr ⊢
        have := ih (i + 1) (some t) tr (evs ++ [Event.cvCall cfg.k_fold])
          (lgs ++ [(c.dataset, [("test", c.cvScore)])]) herr
        rw [this.1, this.2]
        constructor <;> simp
      | true =>
        simp only [hsb, if_true, hcv] at herr ⊢
        cases hbp : bestPhase t c.dataset i [("test", c.cvScore)] tr with
        | mk tr1 s =>
          rw [hbp] at herr
          cases s with
          | none =>
            simp at herr
          | some v =>
            dsimp only at herr ⊢
            have := ih (i + 1) (some t) tr1 (evs ++ [Event.cvCall cfg.k_fold])
              (lgs ++ [(c.dataset, [("test", c.cvScore)])]) herr
            rw [this.1, this.2]
            constructor <;> simp

/-- In the validation pass, candidates before an offending one each get exactly
    one executor invocation, and the offending candidate aborts the pass with a
    ConfigError before its own executor invocation. -/
theorem testLoopAux_reject (mode : String) (bad : Cand) (rest : List Cand)
    (hmode : mode = "train" ∨ mode = "evaluate")
    (hbad : ¬ bad.readerName = "basic_classification_reader") :
    ∀ (pre : List Cand) (evs : List Event),
      (∀ c ∈ pre, c.readerName = "basic_classification_reader") →
      (testLoopAux mode (pre ++ bad :: rest) evs).error = some RunError.configError ∧
      (testLoopAux mode (pre ++ bad :: rest) evs).events.length = evs.length + pre.length := by
  intro pre
  induction pre with
  | nil =>
    intro evs _
    constructor <;> simp [testLoopAux, hbad]
  | cons c cs ih =>
    intro evs hall
    have hc : c.readerName = "basic_classification_reader" :=
      hall c (List.mem_cons_self c cs)
    have htail : ∀ c' ∈ cs, c'.readerName = "basic_classification_reader" :=
      fun c' h => hall c' (List.mem_cons_of_mem c h)
    rcases hmode with h | h
    · subst h
      have hstep : testLoopAux "train" ((c :: cs) ++ bad :: rest) evs =
          testLoopAux "train" (cs ++ bad :: rest) (evs ++ [Event.execCall true false]) := by
        rw [List.cons_append]
        simp [testLoopAux, hc]
      rw [hstep]
      obtain ⟨h1, h2⟩ := ih (evs ++ [Event.execCall true false]) htail
      refine ⟨h1, ?_⟩
      rw [h2]
      simp only [List.length_append, List.length_cons, List.length_nil]
      omega
    · subst h
      have hev : ¬ (("evaluate" : String) = "train") := by decide
      have hstep : testLoopAux "evaluate" ((c :: cs) ++ bad :: rest) evs =
          testLoopAux "evaluate" (cs ++ bad :: rest) (evs ++ [Event.execCall false false]) := by
        rw [List.cons_append]
        simp [testLoopAux, hc, hev]
      rw [hstep]
      obtain ⟨h1, h2⟩ := ih (evs ++ [Event.execCall false false]) htail
      refine ⟨h1, ?_⟩
      rw [h2]
      simp only [List.length_append, List.length_cons, List.length_nil]
      omega

/-! Claim C1. -/

/-- Configuration and candidate list of the concrete C1 counterexample:
    a single candidate whose target-metric value is -2. -/
def c1cfg : RunCfg := ⟨"train", false, 5, true, some "m"⟩

def c1cands : List Cand := [⟨"d", "r", ["m"], [("test", [("m", -2)])], []⟩]

/-- C1 counterexample: with best-only retention, a dataset whose single scored
    candidate has target-metric value -2 finishes the run error-free with
    tracked best score -1 and best index none, although the maximum observed
    value is -2 achieved first (and only) by candidate 1. The tracked best
    score does not equal the maximum observed value and the tracked index does
    not reference the achiever, refuting the claim as stated. -/
theorem claim_C1_counterexample :
    (runLoop c1cfg c1cands).error = none ∧
    obsFrom c1cfg "m" "d" c1cands 0 = [(1, (-2 : ℚ))] ∧
    slookup (runLoop c1cfg c1cands).tracker "d" =
      some ((-1 : ℚ), (none : Option Nat)) ∧
    ¬ ((-1 : ℚ) = -2) ∧ ¬ ((none : Option Nat) = some 1) := by
  exact ⟨by decide, by decide, by decide, by decide, by decide⟩

/-- C1 (amended): for every dataset D with at least one scored candidate
    during run with best-only retention enabled, and provided every
    target-metric value observed for D strictly exceeds the -1 sentinel the
    tracker initializes best_score with, the final tracked best score for D
    equals the maximum target-metric value observed across all of D's
    candidates, the tracked best index is the 1-based candidate index of the
    first achiever of that maximum, and ties keep the first achiever (the
    comparison is strict greater-than). -/
theorem claim_C1_amended (cfg : RunCfg) (cands : List Cand) (t D : String)
    (M : ℚ) (oi : Option Nat)
    (hsb : cfg.save_best = true)
    (ht : cfg.target_metric = some t)
    (hok : (runLoop cfg cands).error = none)
    (hgt : ∀ p ∈ obsFrom cfg t D cands 0, (-1 : ℚ) < p.2)
    (hne : obsFrom cfg t D cands 0 ≠ [])
    (hres : slookup (runLoop cfg cands).tracker D = some (M, oi)) :
    (∀ p ∈ obsFrom cfg t D cands 0, p.2 ≤ M) ∧
    (∃ j pre post, oi = some j ∧
      obsFrom cfg t D cands 0 = pre ++ (j, M) :: post ∧
      ∀ p ∈ pre, p.2 < M) := by
  have hrun : runLoop cfg cands = runLoopAux cfg cands 0 (some t) [] [] [] := by
    rw [runLoop, ht]
  rw [hrun] at hok hres
  have hb := runLoopAux_tracker cfg t D hsb cands 0 [] [] [] hok
  rw [hres] at hb
  have hnb : slookup ([] : Tracker) D = none := rfl
  rw [hnb] at hb
  simp only [Option.isSome_none, Bool.false_eq_true, false_or, Option.getD_none] at hb
  cases hd : hasDataset cands D with
  | false =>
    rw [hd] at hb
    simp at hb
  | true =>
    rw [hd] at hb
    simp only [if_pos] at hb
    have hMo : (M, oi) = bestFold (obsFrom cfg t D cands 0) ((-1 : ℚ), none) :=
      Option.some.inj hb
    have hM : (bestFold (obsFrom cfg t D cands 0) ((-1 : ℚ), none)).1 = M := by
      rw [← hMo]
    have hoi : (bestFold (obsFrom cfg t D cands 0) ((-1 : ℚ), none)).2 = oi := by
      rw [← hMo]
    obtain ⟨p0, hp0⟩ := List.exists_mem_of_ne_nil _ hne
    obtain ⟨_, hub, j, pre, post, hsnd, hdec, hpre⟩ :=
      bestFold_spec (obsFrom cfg t D cands 0) (-1) none ⟨p0, hp0, hgt p0 hp0⟩
    refine ⟨fun p hp => hM ▸ hub p hp, j, pre, post, ?_, ?_, ?_⟩
    · rw [← hoi, hsnd]
    · rw [← hM]
      exact hdec
    · intro p hp
      have hpm : p ∈ obsFrom cfg t D cands 0 := by
        rw [hdec]
        exact List.mem_append.mpr (Or.inl hp)
      rcases hpre p hp with h' | h'
      · rw [← hM]
        exact h'
      · exact absurd h' (not_le.mpr (hgt p hpm))

/-- Configuration and candidates of the concrete C1 witness: spec scenario A
    with integral metric values 5, 9, 7 for one dataset. -/
def c1wcfg : RunCfg := ⟨"train", false, 5, true, some "accuracy"⟩

def c1wcands : List Cand :=
  [⟨"d", "r", ["accuracy"], [("valid", [("accuracy", 5)])], []⟩,
   ⟨"d", "r", ["accuracy"], [("valid", [("accuracy", 9)])], []⟩,
   ⟨"d", "r", ["accuracy"], [("valid", [("accuracy", 7)])], []⟩]

/-- C1 witness: the amended claim evaluated on scenario A; the best is value 9
    at candidate 2, with the earlier observation strictly below it. -/
theorem claim_C1_witness :
    (∀ p ∈ obsFrom c1wcfg "accuracy" "d" c1wcands 0, p.2 ≤ (9 : ℚ)) ∧
    (∃ j pre post, (some 2 : Option Nat) = some j ∧
      obsFrom c1wcfg "accuracy" "d" c1wcands 0 = pre ++ (j, (9 : ℚ)) :: post ∧
      ∀ p ∈ pre, p.2 < (9 : ℚ)) :=
  claim_C1_amended c1wcfg c1wcands "accuracy" "d" 9 (some 2) (by decide) (by decide)
    (by decide) (by decide) (by decide) (by decide)

/-! Claim C3. -/

/-- Configuration and candidate of the concrete C3 counterexample. -/
def c3cfg : RunCfg := ⟨"train", false, 5, true, some "m3"⟩

def c3cand : Cand := ⟨"d3", "r", ["m3"], [("test", [("m3", -2)])], []⟩

/-- C3 counterexample: the initialization sentinel of the tracker is -1, not
    negative infinity. The real metric value -2 lies strictly below -1, so the
    first candidate of a fresh dataset with value -2 is not recorded: after an
    error-free run the entry still holds best_score = -1 and best_ind = none. -/
theorem claim_C3_counterexample :
    readScore "m3" (resultsOf c3cfg c3cand) = some (-2) ∧
    ((-2 : ℚ) < -1) ∧
    (runLoop c3cfg [c3cand]).error = none ∧
    slookup (runLoop c3cfg [c3cand]).tracker "d3" =
      some ((-1 : ℚ), (none : Option Nat)) := by
  exact ⟨by decide, by decide, by decide, by decide⟩

/-- C3 (amended): the first time a dataset is seen its tracker entry is
    initialized to best_score = -1 (a sentinel below any non-negative metric
    value, not below every real value) and best_ind = none; the first
    candidate's target-metric value is recorded precisely when it strictly
    exceeds -1. -/
theorem claim_C3_amended (cfg : RunCfg) (t : String) (c : Cand) (v : ℚ)
    (hsb : cfg.save_best = true)
    (ht : cfg.target_metric = some t)
    (hexec : (execPhase cfg c).isSome = true)
    (hrs : readScore t (resultsOf cfg c) = some v) :
    slookup (runLoop cfg [c]).tracker c.dataset =
      some (if (-1 : ℚ) < v then (v, some 1) else ((-1 : ℚ), none)) := by
  obtain ⟨p, hex⟩ := Option.isSome_iff_exists.mp hexec
  obtain ⟨ev, results⟩ := p
  have hres : results = resultsOf cfg c := execPhase_results cfg c ev results hex
  rw [runLoop, ht, runLoopAux_cons_eq, hex]
  simp only [hsb, if_true]
  cases hbp : bestPhase t c.dataset 0 results [] with
  | mk tr1 s =>
    cases s with
    | none =>
      exfalso
      have hn := bestPhase_none_read t c.dataset 0 results [] tr1 hbp
      rw [hres, hrs] at hn
      exact Option.noConfusion hn
    | some w =>
      have hweq : w = v := by
        have hs := bestPhase_some_read t c.dataset 0 results [] tr1 w hbp
        rw [hres, hrs] at hs
        exact (Option.some.inj hs).symm
      subst hweq
      have hself := bestPhase_lookup_self t c.dataset 0 results [] tr1 w hbp
      have hnil : slookup ([] : Tracker) c.dataset = none := rfl
      rw [hnil] at hself
      simp only [Option.getD_none] at hself
      show slookup tr1 c.dataset =
        some (if ((-1 : ℚ), (none : Option Nat)).1 < w then (w, some (0 + 1))
              else ((-1 : ℚ), (none : Option Nat)))
      exact hself

/-- Candidate of the concrete C3 witness. -/
def c3wcfg : RunCfg := ⟨"train", false, 5, true, some "m"⟩

def c3wcand : Cand := ⟨"dw", "r", ["m"], [("valid", [("m", 3)])], []⟩

/-- C3 witness: the amended claim on a first value 3 above the sentinel,
    which is therefore recorded at index 1. -/
theorem claim_C3_witness :
    slookup (runLoop c3wcfg [c3wcand]).tracker "dw" =
      some (if (-1 : ℚ) < 3 then ((3 : ℚ), some 1) else ((-1 : ℚ), none)) :=
  claim_C3_amended c3wcfg "m" c3wcand 3 (by decide) (by decide) (by decide) (by decide)

/-! Claim C8. -/

/-- C8: during best-tracking, a trial result lacking the target metric in
    both the test and the valid split makes the run abort with an error:
    contrapositively, every candidate of an error-free run with best-only
    retention yields a score for the target metric under the test-first,
    valid-fallback read. A candidate with a missing metric is never silently
    treated as no improvement with the loop continuing. -/
theorem claim_C8 (cfg : RunCfg) (t : String) (cands : List Cand)
    (hsb : cfg.save_best = true)
    (ht : cfg.target_metric = some t)
    (hok : (runLoop cfg cands).error = none) :
    ∀ c ∈ cands, readScore t (resultsOf cfg c) ≠ none := by
  have hrun : runLoop cfg cands = runLoopAux cfg cands 0 (some t) [] [] [] := by
    rw [runLoop, ht]
  rw [hrun] at hok
  exact runLoopAux_scored cfg t hsb cands 0 [] [] [] hok

/-- Instances of the concrete C8 witness. -/
def c8cfg : RunCfg := ⟨"train", false, 5, true, some "m"⟩

def c8cands : List Cand :=
  [⟨"d8", "r", ["m"], [("test", [("m", 1)])], []⟩,
   ⟨"e8", "r", ["m"], [("valid", [("m", 2)])], []⟩]

/-- C8 witness: on an error-free two-candidate run both candidates carry
    the target metric. -/
theorem claim_C8_witness :
    readScore "m" (resultsOf c8cfg ⟨"d8", "r", ["m"], [("test", [("m", 1)])], []⟩) ≠ none ∧
    readScore "m" (resultsOf c8cfg ⟨"e8", "r", ["m"], [("valid", [("m", 2)])], []⟩) ≠ none :=
  ⟨claim_C8 c8cfg "m" c8cands (by decide) (by decide) (by decide)
      ⟨"d8", "r", ["m"], [("test", [("m", 1)])], []⟩ (by decide),
    claim_C8 c8cfg "m" c8cands (by decide) (by decide) (by decide)
      ⟨"e8", "r", ["m"], [("valid", [("m", 2)])], []⟩ (by decide)⟩

/-! Claim C10. -/

/-- C10: when the trial result contains a test split, the valid split is
    never consulted: if the test split lacks the target metric the loop
    aborts with a KeyError at that candidate, whatever the valid split
    contains, with nothing logged or saved for it. -/
theorem claim_C10 (cfg : RunCfg) (t : String) (c : Cand) (rest : List Cand)
    (tl : Metrics)
    (hsb : cfg.save_best = true)
    (ht : cfg.target_metric = some t)
    (hcv : cfg.cross_validation = false)
    (hmode : cfg.mode = "train")
    (htest : slookup c.execResult "test" = some tl)
    (hmiss : slookup tl t = none) :
    (runLoop cfg (c :: rest)).error = some RunError.keyError ∧
    (runLoop cfg (c :: rest)).logs = [] ∧
    (runLoop cfg (c :: rest)).events = [Event.execCall true true] := by
  have hrs : readScore t c.execResult = none := by
    unfold readScore
    rw [htest]
    exact hmiss
  have hex : execPhase cfg c = some (Event.execCall true true, c.execResult) := by
    unfold execPhase
    rw [if_neg (by rw [hcv]; exact Bool.false_ne_true), if_pos hmode]
  rw [runLoop, ht, runLoopAux_cons_eq, hex]
  simp only [hsb, if_true]
  rw [bestPhase_of_read_none t c.dataset 0 c.execResult [] hrs]
  exact ⟨rfl, rfl, rfl⟩

/-- Instances of the concrete C10 witness: the test split lacks the target
    metric while the valid split contains it. -/
def c10cfg : RunCfg := ⟨"train", false, 5, true, some "m"⟩

def c10cand : Cand :=
  ⟨"da", "r", ["m"], [("test", [("other", 1)]), ("valid", [("m", 99)])], []⟩

/-- C10 witness: the loop aborts with a KeyError even though the valid split
    carries the target metric with value 99. -/
theorem claim_C10_witness :
    (runLoop c10cfg [c10cand]).error = some RunError.keyError ∧
    (runLoop c10cfg [c10cand]).logs = [] ∧
    (runLoop c10cfg [c10cand]).events = [Event.execCall true true] :=
  claim_C10 c10cfg "m" c10cand [] [("other", 1)] (by decide) (by decide) (by decide)
    (by decide) (by decide) (by decide)

/-! Claim C9. -/

/-- C9: with cross-validation enabled, an error-free run invokes the
    cross-validation scorer exactly once per candidate with the configured
    fold count as n_folds and performs no other external call; in particular
    no per-candidate checkpoint configuration is saved. Each logged trial
    result is the scorer output wrapped under the synthetic test split key. -/
theorem claim_C9 (cfg : RunCfg) (cands : List Cand)
    (hcv : cfg.cross_validation = true)
    (hok : (runLoop cfg cands).error = none) :
    (runLoop cfg cands).events = cands.map (fun _ => Event.cvCall cfg.k_fold) ∧
    (runLoop cfg cands).logs = cands.map (fun c => (c.dataset, [("test", c.cvScore)])) := by
  rw [runLoop] at hok ⊢
  have := runLoopAux_cv cfg hcv cands 0 cfg.target_metric [] [] [] hok
  simpa using this

/-- Instances of the concrete C9 witness: two candidates, k_fold = 5. -/
def c9cfg : RunCfg := ⟨"train", true, 5, true, some "m"⟩

def c9cands : List Cand :=
  [⟨"d9", "r", ["m"], [], [("m", 1)]⟩, ⟨"d9", "r", ["m"], [], [("m", 2)]⟩]

/-- C9 witness: two scorer calls with n_folds = 5, no save-config event, and
    both logs wrapped under the test key. -/
theorem claim_C9_witness :
    (runLoop c9cfg c9cands).events = c9cands.map (fun _ => Event.cvCall c9cfg.k_fold) ∧
    (runLoop c9cfg c9cands).logs =
      c9cands.map (fun c => (c.dataset, [("test", c.cvScore)])) :=
  claim_C9 c9cfg c9cands (by decide) (by decide)

/-! Claim C7. -/

/-- Instances of the concrete C7 counterexample. -/
def c7cfg : RunCfg := ⟨"score", true, 5, false, some "m"⟩

def c7cands : List Cand :=
  [⟨"d7", "basic_classification_reader", ["m"], [], [("m", 1)]⟩]

/-- C7 counterexample: with cross-validation enabled, run never checks the
    mode: mode score completes the full run without any error and the
    candidate executes (one scorer call), refuting the claim that every
    unsupported mode makes the full run abort before any candidate executes. -/
theorem claim_C7_counterexample :
    (runLoop c7cfg c7cands).error = none ∧
    (runLoop c7cfg c7cands).events = [Event.cvCall 5] := by
  exact ⟨by decide, by decide⟩

/-- C7 (amended): when cross-validation is disabled and at least one candidate
    is generated, a mode other than train and evaluate makes the full run
    raise ValueError before any candidate executes (no event is emitted), and
    makes the validation pass raise ValueError on its first candidate when
    that candidate passes the reader check. With cross-validation enabled the
    full run performs no mode check at all. -/
theorem claim_C7_amended (cfg : RunCfg) (t : String) (c : Cand) (rest : List Cand)
    (hm1 : ¬ cfg.mode = "train")
    (hm2 : ¬ cfg.mode = "evaluate")
    (hcv : cfg.cross_validation = false)
    (ht : cfg.target_metric = some t) :
    ((runLoop cfg (c :: rest)).error = some RunError.valueError ∧
     (runLoop cfg (c :: rest)).events = []) ∧
    (c.readerName = "basic_classification_reader" →
      (testLoop cfg.mode (c :: rest)).error = some RunError.valueError ∧
      (testLoop cfg.mode (c :: rest)).events = []) := by
  have hex : execPhase cfg c = none := by
    unfold execPhase
    rw [if_neg (by rw [hcv]; exact Bool.false_ne_true), if_neg hm1, if_neg hm2]
  constructor
  · rw [runLoop, ht, runLoopAux_cons_eq, hex]
    exact ⟨rfl, rfl⟩
  · intro hr
    constructor <;> simp [testLoop, testLoopAux, hr, hm1, hm2]

/-- Instances of the concrete C7 witness. -/
def c7wcfg : RunCfg := ⟨"score", false, 5, true, some "m"⟩

def c7wcand : Cand := ⟨"dw7", "basic_classification_reader", ["m"], [], []⟩

/-- C7 witness: mode score with cross-validation disabled aborts both the
    full run and the validation pass with ValueError and no executions. -/
theorem claim_C7_witness :
    ((runLoop c7wcfg [c7wcand]).error = some RunError.valueError ∧
     (runLoop c7wcfg [c7wcand]).events = []) ∧
    (c7wcand.readerName = "basic_classification_reader" →
      (testLoop c7wcfg.mode [c7wcand]).error = some RunError.valueError ∧
      (testLoop c7wcfg.mode [c7wcand]).events = []) :=
  claim_C7_amended c7wcfg "m" c7wcand [] (by decide) (by decide) (by decide) (by decide)

/-! Claim C6. -/

/-- Instances of the concrete C6 counterexample. -/
def c6good : Cand := ⟨"d6", "basic_classification_reader", ["m"], [], []⟩

def c6bad : Cand := ⟨"d6", "csv_reader", ["m"], [], []⟩

/-- C6 counterexample: in the validation pass, a bad-reader candidate in
    second position aborts the pass with a ConfigError, but only after one
    executor invocation already happened for the first candidate, refuting
    the claim that the abort comes with zero trial executions. -/
theorem claim_C6_counterexample :
    (testLoop "train" [c6good, c6bad]).error = some RunError.configError ∧
    (testLoop "train" [c6good, c6bad]).events = [Event.execCall true false] := by
  exact ⟨by decide, by decide⟩

/-- C6 (amended): in the validation pass, a candidate whose dataset reader is
    not the basic classification reader aborts the pass with a ConfigError
    raised before that candidate's own executor invocation: exactly one
    executor invocation happened per preceding (reader-valid) candidate and
    none for the offending candidate or any later one. When the offending
    candidate is first, zero trial executions happen. -/
theorem claim_C6_amended (mode : String) (pre : List Cand) (bad : Cand)
    (rest : List Cand)
    (hmode : mode = "train" ∨ mode = "evaluate")
    (hpre : ∀ c ∈ pre, c.readerName = "basic_classification_reader")
    (hbad : ¬ bad.readerName = "basic_classification_reader") :
    (testLoop mode (pre ++ bad :: rest)).error = some RunError.configError ∧
    (testLoop mode (pre ++ bad :: rest)).events.length = pre.length := by
  rw [testLoop]
  have := testLoopAux_reject mode bad rest hmode hbad pre [] hpre
  simpa using this

/-- Instances of the concrete C6 witness. -/
def c6wgood : Cand := ⟨"dw6", "basic_classification_reader", ["m"], [], []⟩

def c6wbad : Cand := ⟨"dw6", "sql_reader", ["m"], [], []⟩

/-- C6 witness: one valid candidate before the offender gives exactly one
    executor invocation and a ConfigError. -/
theorem claim_C6_witness :
    (testLoop "train" ([c6wgood] ++ c6wbad :: [])).error = some RunError.configError ∧
    (testLoop "train" ([c6wgood] ++ c6wbad :: [])).events.length = [c6wgood].length :=
  claim_C6_amended "train" [c6wgood] c6wbad [] (Or.inl rfl) (by decide) (by decide)

/-! Retention / cleanup model (run, lines 180-200).

The checkpoint tree is modelled per dataset as two flat directories: the
dataset checkpoint directory (source) and the sibling <dataset>_best_pipe
directory (dest). Entries carry an identity tag so that distinct on-disk
objects sharing a name can be told apart. shutil.move into a directory
raises when a like-named entry already exists at the destination, which is
the behaviour of the Python standard library. One divergence of no
observable consequence here: in the code os.makedirs(dest) runs before
os.listdir(source), so a missing source leaves a freshly created dest
behind; the model reports the same FileNotFoundError without recording
that partial effect. -/

/-- Kind of a directory entry. -/
inductive FKind where
  | kfile
  | kdir
  deriving DecidableEq, Repr

/-- A directory entry: name, kind, identity tag. -/
structure FsEntry where
  name : String
  kind : FKind
  tag : Nat
  deriving DecidableEq, Repr

/-- State of one dataset's checkpoint directory and best-pipe directory. -/
structure DirState where
  sourceExists : Bool
  source : List FsEntry
  destExists : Bool
  dest : List FsEntry
  deriving DecidableEq, Repr

/-- Filesystem errors of the retention pass. -/
inductive FsError where
  | fileNotFound
  | destAlreadyExists
  deriving DecidableEq, Repr

/-- Whether the listing holds an entry with the name (os.path.exists). -/
def hasEntry : List FsEntry → String → Bool
  | [], _ => false
  | e :: r, n => if e.name = n then true else hasEntry r n

/-- Whether the listing holds a regular file with the name (os.path.isfile). -/
def hasFile : List FsEntry → String → Bool
  | [], _ => false
  | e :: r, n => if e.name = n ∧ e.kind = FKind.kfile then true else hasFile r n

/-- Whether the listing holds a directory with the name (os.path.isdir). -/
def hasDir : List FsEntry → String → Bool
  | [], _ => false
  | e :: r, n => if e.name = n ∧ e.kind = FKind.kdir then true else hasDir r n

/-- Drop every entry with the name (rmtree of dest/name). -/
def removeNamed : List FsEntry → String → List FsEntry
  | [], _ => []
  | e :: r, n => if e.name = n then removeNamed r n else e :: removeNamed r n

/-- The entries of the listing carrying the name. -/
def entriesNamed : List FsEntry → String → List FsEntry
  | [], _ => []
  | e :: r, n => if e.name = n then e :: entriesNamed r n else entriesNamed r n

/-- Model of the Python check name.startswith("pipe"). -/
def startsWithPipe (s : String) : Bool :=
  match s.data with
  | 'p' :: 'i' :: 'p' :: 'e' :: _ => true
  | _ => false

/-- shutil.move of one entry into the destination directory: raises when a
    like-named entry already exists there, else appends the entry. -/
def moveTo (dest : List FsEntry) (e : FsEntry) : Except FsError (List FsEntry) :=
  if hasEntry dest e.name then Except.error FsError.destAlreadyExists
  else Except.ok (dest ++ [e])

/-- The Python string "pipe_{}".format(best_ind), None included. -/
def pipeName : Option Nat → String
  | some n => "pipe_" ++ toString n
  | none => "pipe_None"

/-- The retention loop over the source listing, lines 188-197: an entry whose
    name does not start with pipe is moved unless a like-named regular file is
    already at the destination; the entry named after the best candidate
    replaces a like-named destination directory (rmtree then move) or is moved
    directly; every other entry is left to be deleted with the source. -/
def retLoop (bestName : String) :
    List FsEntry → List FsEntry → Except FsError (List FsEntry)
  | [], dest => Except.ok dest
  | f :: fs, dest =>
    if startsWithPipe f.name = false ∧ hasFile dest f.name = false then
      match moveTo dest f with
      | Except.error e => Except.error e
      | Except.ok d => retLoop bestName fs d
    else if f.name = bestName then
      if hasDir dest f.name then
        match moveTo (removeNamed dest f.name) f with
        | Except.error e => Except.error e
        | Except.ok d => retLoop bestName fs d
      else
        match moveTo dest f with
        | Except.error e => Except.error e
        | Except.ok d => retLoop bestName fs d
    else retLoop bestName fs dest

/-- Retention for one dataset, lines 182-200: create the best-pipe directory
    when absent, list the source directory (FileNotFoundError when it does
    not exist), run the loop, then rmtree the whole source directory. -/
def retainDataset (bestInd : Option Nat) (st : DirState) : Except FsError DirState :=
  if st.sourceExists then
    match retLoop (pipeName bestInd) st.source (if st.destExists then st.dest else []) with
    | Except.ok d => Except.ok ⟨false, [], true, d⟩
    | Except.error e => Except.error e
  else Except.error FsError.fileNotFound

/-- Per-dataset directory states, keyed by dataset name. -/
abbrev FsMap := List (String × DirState)

/-- Directory state of a dataset; a missing binding means nothing exists. -/
def fsGet (fs : FsMap) (d : String) : DirState :=
  (slookup fs d).getD ⟨false, [], false, []⟩

/-- The retention pass over every tracked dataset, in tracker order; an
    exception stops the pass, leaving earlier promotions in place. -/
def retainAll : Tracker → FsMap → FsMap × Option FsError
  | [], fs => (fs, none)
  | (d, e) :: rest, fs =>
    match retainDataset e.2 (fsGet fs d) with
    | Except.ok st => retainAll rest (aset fs d st)
    | Except.error err => (fs, some err)

/-- Outcome of run including the retention pass. -/
structure FullOut where
  run : RunOut
  fs : FsMap
  fsError : Option FsError
  deriving DecidableEq, Repr

/-- PipelineManager.run including the end-of-run retention, lines 181-200:
    retention runs only when the candidate loop finished without error and
    best-only retention is enabled. -/
def runModel (cfg : RunCfg) (cands : List Cand) (fs0 : FsMap) : FullOut :=
  if (runLoop cfg cands).error = none ∧ cfg.save_best = true then
    ⟨runLoop cfg cands, (retainAll (runLoop cfg cands).tracker fs0).1,
     (retainAll (runLoop cfg cands).tracker fs0).2⟩
  else ⟨runLoop cfg cands, fs0, none⟩

/-! Listing lemmas. -/

theorem hasEntry_append_left (l l2 : List FsEntry) (n : String)
    (h : hasEntry l n = true) : hasEntry (l ++ l2) n = true := by
  induction l with
  | nil => simp [hasEntry] at h
  | cons e r ih =>
    by_cases he : e.name = n
    · simp [hasEntry, he]
    · simp only [hasEntry, if_neg he] at h
      simp only [List.cons_append, hasEntry, if_neg he]
      exact ih h

theorem hasEntry_append_self (l : List FsEntry) (f : FsEntry) :
    hasEntry (l ++ [f]) f.name = true := by
  induction l with
  | nil => simp [hasEntry]
  | cons e r ih =>
    by_cases he : e.name = f.name
    · simp [hasEntry, he]
    · simp only [List.cons_append, hasEntry, if_neg he]
      exact ih

theorem hasEntry_append_ne (l : List FsEntry) (f : FsEntry) (n : String)
    (h : ¬ f.name = n) : hasEntry (l ++ [f]) n = hasEntry l n := by
  induction l with
  | nil => simp [hasEntry, h]
  | cons e r ih =>
    by_cases he : e.name = n
    · simp [hasEntry, he]
    · simp only [List.cons_append, hasEntry, if_neg he]
      exact ih

theorem hasEntry_removeNamed_self (l : List FsEntry) (n : String) :
    hasEntry (removeNamed l n) n = false := by
  induction l with
  | nil => rfl
  | cons e r ih =>
    by_cases he : e.name = n
    · simp only [removeNamed, if_pos he]
      exact ih
    · simp only [removeNamed, if_neg he, hasEntry, if_neg he]
      exact ih

theorem hasEntry_removeNamed_ne (l : List FsEntry) (m n : String) (h : ¬ m = n) :
    hasEntry (removeNamed l m) n = hasEntry l n := by
  induction l with
  | nil => rfl
  | cons e r ih =>
    by_cases hm : e.name = m
    · have hn : ¬ e.name = n := by rw [hm]; exact h
      simp only [removeNamed, if_pos hm, hasEntry, if_neg hn]
      exact ih
    · by_cases hn : e.name = n
      · rw [removeNamed, if_neg hm, hasEntry, if_pos hn, hasEntry, if_pos hn]
      · simp only [removeNamed, if_neg hm, hasEntry, if_neg hn]
        exact ih

theorem entriesNamed_append (l1 l2 : List FsEntry) (n : String) :
    entriesNamed (l1 ++ l2) n = entriesNamed l1 n ++ entriesNamed l2 n := by
  induction l1 with
  | nil => simp [entriesNamed]
  | cons e r ih =>
    rw [List.cons_append]
    by_cases he : e.name = n
    · rw [entriesNamed, if_pos he, entriesNamed, if_pos he, ih, List.cons_append]
    · rw [entriesNamed, if_neg he, entriesNamed, if_neg he, ih]

theorem entriesNamed_nil_of_not_hasEntry (l : List FsEntry) (n : String)
    (h : hasEntry l n = false) : entriesNamed l n = [] := by
  induction l with
  | nil => rfl
  | cons e r ih =>
    by_cases he : e.name = n
    · rw [hasEntry, if_pos he] at h
      exact absurd h (by simp)
    · rw [hasEntry, if_neg he] at h
      rw [entriesNamed, if_neg he]
      exact ih h

theorem entriesNamed_removeNamed_ne (l : List FsEntry) (m n : String) (h : ¬ m = n) :
    entriesNamed (removeNamed l m) n = entriesNamed l n := by
  induction l with
  | nil => rfl
  | cons e r ih =>
    by_cases hm : e.name = m
    · have hn : ¬ e.name = n := by rw [hm]; exact h
      simp only [removeNamed, if_pos hm, entriesNamed, if_neg hn]
      exact ih
    · by_cases hn : e.name = n
      · simp only [removeNamed, if_neg hm, entriesNamed, if_pos hn, ih]
      · simp only [removeNamed, if_neg hm, entriesNamed, if_neg hn]
        exact ih

theorem entriesNamed_single_self (f : FsEntry) : entriesNamed [f] f.name = [f] := by
  simp [entriesNamed]

theorem entriesNamed_single_ne (f : FsEntry) (n : String) (h : ¬ f.name = n) :
    entriesNamed [f] n = [] := by
  simp [entriesNamed, h]

theorem hasFile_hasEntry (l : List FsEntry) (n : String)
    (h : hasFile l n = true) : hasEntry l n = true := by
  induction l with
  | nil => simp [hasFile] at h
  | cons e r ih =>
    by_cases he : e.name = n
    · simp [hasEntry, he]
    · rw [hasFile, if_neg (fun hh => he hh.1)] at h
      rw [hasEntry, if_neg he]
      exact ih h

theorem hasDir_hasEntry (l : List FsEntry) (n : String)
    (h : hasDir l n = true) : hasEntry l n = true := by
  induction l with
  | nil => simp [hasDir] at h
  | cons e r ih =>
    by_cases he : e.name = n
    · simp [hasEntry, he]
    · rw [hasDir, if_neg (fun hh => he hh.1)] at h
      rw [hasEntry, if_neg he]
      exact ih h

theorem hasFile_of_hasEntry_not_hasDir (l : List FsEntry) (n : String)
    (he : hasEntry l n = true) (hd : hasDir l n = false) : hasFile l n = true := by
  induction l with
  | nil => simp [hasEntry] at he
  | cons e r ih =>
    by_cases hn : e.name = n
    · cases hk : e.kind with
      | kfile => rw [hasFile, if_pos ⟨hn, hk⟩]
      | kdir =>
        rw [hasDir, if_pos ⟨hn, hk⟩] at hd
        exact absurd hd (by simp)
    · rw [hasEntry, if_neg hn] at he
      rw [hasDir, if_neg (fun hh => hn hh.1)] at hd
      rw [hasFile, if_neg (fun hh => hn hh.1)]
      exact ih he hd

theorem hasEntry_exists (l : List FsEntry) (n : String) (h : hasEntry l n = true) :
    ∃ f ∈ l, f.name = n := by
  induction l with
  | nil => simp [hasEntry] at h
  | cons e r ih =>
    by_cases he : e.name = n
    · exact ⟨e, List.mem_cons_self e r, he⟩
    · rw [hasEntry, if_neg he] at h
      obtain ⟨f, hf, hfn⟩ := ih h
      exact ⟨f, List.mem_cons_of_mem e hf, hfn⟩

theorem startsWithPipe_pipeName (bi : Option Nat) :
    startsWithPipe (pipeName bi) = true := by
  cases bi with
  | none => rfl
  | some n =>
    show startsWithPipe ("pipe_" ++ toString n) = true
    have hdata : ("pipe_" ++ toString n).data =
        'p' :: 'i' :: 'p' :: 'e' :: '_' :: (toString n).data := by
      rw [String.data_append]
      rfl
    unfold startsWithPipe
    rw [hdata]
    rfl

/-! Step equations of the retention loop. -/

theorem retLoop_cons_move (b : String) (f : FsEntry) (fs dest : List FsEntry)
    (h1 : startsWithPipe f.name = false) (h2 : hasFile dest f.name = false)
    (h3 : hasEntry dest f.name = false) :
    retLoop b (f :: fs) dest = retLoop b fs (dest ++ [f]) := by
  rw [retLoop, if_pos ⟨h1, h2⟩]
  unfold moveTo
  rw [if_neg (by rw [h3]; exact Bool.false_ne_true)]

theorem retLoop_cons_collision_err (b : String) (f : FsEntry) (fs dest : List FsEntry)
    (h1 : startsWithPipe f.name = false) (h2 : hasFile dest f.name = false)
    (h3 : hasEntry dest f.name = true) :
    retLoop b (f :: fs) dest = Except.error FsError.destAlreadyExists := by
  rw [retLoop, if_pos ⟨h1, h2⟩]
  unfold moveTo
  rw [if_pos h3]

theorem retLoop_cons_skip (b : String) (f : FsEntry) (fs dest : List FsEntry)
    (h : ¬ (startsWithPipe f.name = false ∧ hasFile dest f.name = false))
    (hb : ¬ f.name = b) :
    retLoop b (f :: fs) dest = retLoop b fs dest := by
  rw [retLoop, if_neg h, if_neg hb]

theorem retLoop_cons_best_dir (b : String) (f : FsEntry) (fs dest : List FsEntry)
    (h : ¬ (startsWithPipe f.name = false ∧ hasFile dest f.name = false))
    (hb : f.name = b) (hd : hasDir dest f.name = true) :
    retLoop b (f :: fs) dest = retLoop b fs (removeNamed dest f.name ++ [f]) := by
  rw [retLoop, if_neg h, if_pos hb, if_pos hd]
  unfold moveTo
  rw [if_neg (by rw [hasEntry_removeNamed_self]; exact Bool.false_ne_true)]

theorem retLoop_cons_best_nodir (b : String) (f : FsEntry) (fs dest : List FsEntry)
    (h : ¬ (startsWithPipe f.name = false ∧ hasFile dest f.name = false))
    (hb : f.name = b) (hd : hasDir dest f.name = false)
    (he : hasEntry dest f.name = false) :
    retLoop b (f :: fs) dest = retLoop b fs (dest ++ [f]) := by
  rw [retLoop, if_neg h, if_pos hb, if_neg (by rw [hd]; exact Bool.false_ne_true)]
  unfold moveTo
  rw [if_neg (by rw [he]; exact Bool.false_ne_true)]

theorem retLoop_cons_best_nodir_err (b : String) (f : FsEntry) (fs dest : List FsEntry)
    (h : ¬ (startsWithPipe f.name = false ∧ hasFile dest f.name = false))
    (hb : f.name = b) (hd : hasDir dest f.name = false)
    (he : hasEntry dest f.name = true) :
    retLoop b (f :: fs) dest = Except.error FsError.destAlreadyExists := by
  rw [retLoop, if_neg h, if_pos hb, if_neg (by rw [hd]; exact Bool.false_ne_true)]
  unfold moveTo
  rw [if_pos he]

theorem bool_eq_false (b : Bool) (h : ¬ b = true) : b = false := by
  cases b
  · rfl
  · exact absurd rfl h

/-! Invariants of the retention loop. -/

/-- Processing files none of which carries a given name leaves the entries of
    that name at the destination untouched. -/
theorem retLoop_stable (b n : String) :
    ∀ (files dest dest' : List FsEntry), (∀ f ∈ files, ¬ f.name = n) →
      retLoop b files dest = Except.ok dest' →
      entriesNamed dest' n = entriesNamed dest n ∧
      hasEntry dest' n = hasEntry dest n := by
  intro files
  induction files with
  | nil =>
    intro dest dest' _ hok
    cases hok
    exact ⟨rfl, rfl⟩
  | cons f fs ih =>
    intro dest dest' hnames hok
    have hfn : ¬ f.name = n := hnames f (List.mem_cons_self f fs)
    have htail : ∀ g ∈ fs, ¬ g.name = n :=
      fun g hg => hnames g (List.mem_cons_of_mem f hg)
    by_cases h1 : startsWithPipe f.name = false ∧ hasFile dest f.name = false
    · by_cases h3 : hasEntry dest f.name = true
      · rw [retLoop_cons_collision_err b f fs dest h1.1 h1.2 h3] at hok
        cases hok
      · rw [retLoop_cons_move b f fs dest h1.1 h1.2 (bool_eq_false _ h3)] at hok
        obtain ⟨e1, e2⟩ := ih (dest ++ [f]) dest' htail hok
        constructor
        · rw [e1, entriesNamed_append, entriesNamed_single_ne f n hfn, List.append_nil]
        · rw [e2, hasEntry_append_ne dest f n hfn]
    · by_cases hb : f.name = b
      · by_cases hd : hasDir dest f.name = true
        · rw [retLoop_cons_best_dir b f fs dest h1 hb hd] at hok
          obtain ⟨e1, e2⟩ := ih _ dest' htail hok
          constructor
          · rw [e1, entriesNamed_append, entriesNamed_single_ne f n hfn, List.append_nil,
              entriesNamed_removeNamed_ne dest f.name n hfn]
          · rw [e2, hasEntry_append_ne _ f n hfn, hasEntry_removeNamed_ne dest f.name n hfn]
        · by_cases he : hasEntry dest f.name = true
          · rw [retLoop_cons_best_nodir_err b f fs dest h1 hb (bool_eq_false _ hd) he] at hok
            cases hok
          · rw [retLoop_cons_best_nodir b f fs dest h1 hb (bool_eq_false _ hd)
              (bool_eq_false _ he)] at hok
            obtain ⟨e1, e2⟩ := ih _ dest' htail hok
            constructor
            · rw [e1, entriesNamed_append, entriesNamed_single_ne f n hfn, List.append_nil]
            · rw [e2, hasEntry_append_ne dest f n hfn]
      · rw [retLoop_cons_skip b f fs dest h1 hb] at hok
        exact ih dest dest' htail hok

/-- Once an entry named after the best candidate is at the destination, a
    successful rest of the loop keeps one there. -/
theorem retLoop_best_preserved (b : String) :
    ∀ (files dest dest' : List FsEntry),
      retLoop b files dest = Except.ok dest' →
      hasEntry dest b = true → hasEntry dest' b = true := by
  intro files
  induction files with
  | nil =>
    intro dest dest' hok hb
    cases hok
    exact hb
  | cons f fs ih =>
    intro dest dest' hok hb
    by_cases h1 : startsWithPipe f.name = false ∧ hasFile dest f.name = false
    · by_cases h3 : hasEntry dest f.name = true
      · rw [retLoop_cons_collision_err b f fs dest h1.1 h1.2 h3] at hok
        cases hok
      · rw [retLoop_cons_move b f fs dest h1.1 h1.2 (bool_eq_false _ h3)] at hok
        exact ih _ dest' hok (hasEntry_append_left dest [f] b hb)
    · by_cases hbf : f.name = b
      · by_cases hd : hasDir dest f.name = true
        · rw [retLoop_cons_best_dir b f fs dest h1 hbf hd] at hok
          refine ih _ dest' hok ?_
          rw [← hbf]
          exact hasEntry_append_self (removeNamed dest f.name) f
        · have he : hasEntry dest f.name = true := by rw [hbf]; exact hb
          rw [retLoop_cons_best_nodir_err b f fs dest h1 hbf (bool_eq_false _ hd) he] at hok
          cases hok
      · rw [retLoop_cons_skip b f fs dest h1 hbf] at hok
        exact ih dest dest' hok hb

/-- A successful loop whose listing holds an entry named after the best
    candidate ends with such an entry at the destination. -/
theorem retLoop_best_in (b : String) (hbp : startsWithPipe b = true) :
    ∀ (files dest dest' : List FsEntry),
      retLoop b files dest = Except.ok dest' →
      (∃ f ∈ files, f.name = b) →
      hasEntry dest' b = true := by
  intro files
  induction files with
  | nil =>
    intro dest dest' _ hex
    obtain ⟨f, hf, _⟩ := hex
    exact absurd hf (List.not_mem_nil f)
  | cons f fs ih =>
    intro dest dest' hok hex
    by_cases hbf : f.name = b
    · have hsw : startsWithPipe f.name = true := by rw [hbf]; exact hbp
      have h1 : ¬ (startsWithPipe f.name = false ∧ hasFile dest f.name = false) := by
        intro hh
        rw [hsw] at hh
        exact absurd hh.1 (by simp)
      by_cases hd : hasDir dest f.name = true
      · rw [retLoop_cons_best_dir b f fs dest h1 hbf hd] at hok
        refine retLoop_best_preserved b fs _ dest' hok ?_
        rw [← hbf]
        exact hasEntry_append_self (removeNamed dest f.name) f
      · by_cases he : hasEntry dest f.name = true
        · rw [retLoop_cons_best_nodir_err b f fs dest h1 hbf (bool_eq_false _ hd) he] at hok
          cases hok
        · rw [retLoop_cons_best_nodir b f fs dest h1 hbf (bool_eq_false _ hd)
            (bool_eq_false _ he)] at hok
          refine retLoop_best_preserved b fs _ dest' hok ?_
          rw [← hbf]
          exact hasEntry_append_self dest f
    · have hex' : ∃ g ∈ fs, g.name = b := by
        obtain ⟨g, hg, hgb⟩ := hex
        rcases List.mem_cons.mp hg with h | h
        · exact absurd (h ▸ hgb) hbf
        · exact ⟨g, h, hgb⟩
      by_cases h1 : startsWithPipe f.name = false ∧ hasFile dest f.name = false
      · by_cases h3 : hasEntry dest f.name = true
        · rw [retLoop_cons_collision_err b f fs dest h1.1 h1.2 h3] at hok
          cases hok
        · rw [retLoop_cons_move b f fs dest h1.1 h1.2 (bool_eq_false _ h3)] at hok
          exact ih _ dest' hok hex'
      · rw [retLoop_cons_skip b f fs dest h1 hbf] at hok
        exact ih dest dest' hok hex'

/-- Per-entry outcome of a successful retention loop for a non pipe-prefixed
    entry of a listing with distinct names: when no like-named entry was at
    the destination the entry itself sits there exactly once afterwards; when
    one was there (necessarily a regular file, a like-named directory raises)
    the destination keeps exactly its original like-named entries and the
    source entry is not moved. -/
theorem retLoop_entry (b : String) (hbp : startsWithPipe b = true) :
    ∀ (files dest dest' : List FsEntry),
      (files.map FsEntry.name).Nodup →
      retLoop b files dest = Except.ok dest' →
      ∀ e ∈ files, startsWithPipe e.name = false →
        entriesNamed dest' e.name =
          (if hasEntry dest e.name = true then entriesNamed dest e.name else [e]) := by
  intro files
  induction files with
  | nil =>
    intro dest dest' _ _ e he
    exact absurd he (List.not_mem_nil e)
  | cons f fs ih =>
    intro dest dest' hnd hok e he hep
    have hnd' : (fs.map FsEntry.name).Nodup := (List.nodup_cons.mp hnd).2
    have hfnotin : f.name ∉ fs.map FsEntry.name := (List.nodup_cons.mp hnd).1
    rcases List.mem_cons.mp he with heq | hin
    · subst heq
      have htail : ∀ g ∈ fs, ¬ g.name = e.name := by
        intro g hg hgn
        exact hfnotin (hgn ▸ List.mem_map_of_mem FsEntry.name hg)
      have hneb : ¬ e.name = b := by
        intro hh
        rw [hh, hbp] at hep
        exact Bool.noConfusion hep
      by_cases hf2 : hasFile dest e.name = true
      · have h1 : ¬ (startsWithPipe e.name = false ∧ hasFile dest e.name = false) := by
          intro hh
          rw [hf2] at hh
          exact absurd hh.2 (by simp)
        rw [retLoop_cons_skip b e fs dest h1 hneb] at hok
        rw [if_pos (hasFile_hasEntry dest e.name hf2)]
        exact (retLoop_stable b e.name fs dest dest' htail hok).1
      · by_cases h3 : hasEntry dest e.name = true
        · rw [retLoop_cons_collision_err b e fs dest hep (bool_eq_false _ hf2) h3] at hok
          cases hok
        · rw [retLoop_cons_move b e fs dest hep (bool_eq_false _ hf2)
            (bool_eq_false _ h3)] at hok
          rw [if_neg h3]
          have hstab := (retLoop_stable b e.name fs (dest ++ [e]) dest' htail hok).1
          rw [hstab, entriesNamed_append, entriesNamed_single_self,
            entriesNamed_nil_of_not_hasEntry dest e.name (bool_eq_false _ h3), List.nil_append]
    · have hne_fe : ¬ f.name = e.name := by
        intro hh
        exact hfnotin (hh ▸ List.mem_map_of_mem FsEntry.name hin)
      by_cases h1 : startsWithPipe f.name = false ∧ hasFile dest f.name = false
      · by_cases h3 : hasEntry dest f.name = true
        · rw [retLoop_cons_collision_err b f fs dest h1.1 h1.2 h3] at hok
          cases hok
        · rw [retLoop_cons_move b f fs dest h1.1 h1.2 (bool_eq_false _ h3)] at hok
          have := ih (dest ++ [f]) dest' hnd' hok e hin hep
          rw [this, hasEntry_append_ne dest f e.name hne_fe, entriesNamed_append,
            entriesNamed_single_ne f e.name hne_fe, List.append_nil]
      · by_cases hbf : f.name = b
        · by_cases hd : hasDir dest f.name = true
          · rw [retLoop_cons_best_dir b f fs dest h1 hbf hd] at hok
            have := ih _ dest' hnd' hok e hin hep
            rw [this, hasEntry_append_ne _ f e.name hne_fe,
              hasEntry_removeNamed_ne dest f.name e.name hne_fe, entriesNamed_append,
              entriesNamed_single_ne f e.name hne_fe, List.append_nil,
              entriesNamed_removeNamed_ne dest f.name e.name hne_fe]
          · by_cases hee : hasEntry dest f.name = true
            · rw [retLoop_cons_best_nodir_err b f fs dest h1 hbf (bool_eq_false _ hd) hee] at hok
              cases hok
            · rw [retLoop_cons_best_nodir b f fs dest h1 hbf (bool_eq_false _ hd)
                (bool_eq_false _ hee)] at hok
              have := ih (dest ++ [f]) dest' hnd' hok e hin hep
              rw [this, hasEntry_append_ne dest f e.name hne_fe, entriesNamed_append,
                entriesNamed_single_ne f e.name hne_fe, List.append_nil]
        · rw [retLoop_cons_skip b f fs dest h1 hbf] at hok
          exact ih dest dest' hnd' hok e hin hep

/-! Shape of a successful and of a failed per-dataset retention. -/

theorem retainDataset_ok (bi : Option Nat) (st st' : DirState)
    (h : retainDataset bi st = Except.ok st') :
    st.sourceExists = true ∧ st'.sourceExists = false ∧ st'.source = [] ∧
    st'.destExists = true ∧
    retLoop (pipeName bi) st.source (if st.destExists then st.dest else []) =
      Except.ok st'.dest := by
  unfold retainDataset at h
  by_cases hs : st.sourceExists = true
  · rw [if_pos hs] at h
    cases hr : retLoop (pipeName bi) st.source (if st.destExists then st.dest else []) with
    | ok d =>
      rw [hr] at h
      injection h with h2
      rw [← h2]
      exact ⟨hs, rfl, rfl, rfl, rfl⟩
    | error e =>
      rw [hr] at h
      cases h
  · rw [if_neg hs] at h
    cases h

theorem retainDataset_noSource (bi : Option Nat) (st : DirState)
    (h : st.sourceExists = false) :
    retainDataset bi st = Except.error FsError.fileNotFound := by
  unfold retainDataset
  rw [if_neg (by rw [h]; exact Bool.false_ne_true)]

/-! The retention pass over the tracker. -/

theorem fsGet_aset_self (fs : FsMap) (d : String) (st : DirState) :
    fsGet (aset fs d st) d = st := by
  unfold fsGet
  rw [slookup_aset, if_pos rfl]
  rfl

theorem fsGet_aset_ne (fs : FsMap) (d d' : String) (st : DirState) (h : ¬ d = d') :
    fsGet (aset fs d st) d' = fsGet fs d' := by
  unfold fsGet
  rw [slookup_aset, if_neg h]

/-- A dataset whose checkpoint directory is gone is untouched by a successful
    retention pass (a second retention of it would raise instead). -/
theorem retainAll_stuck (D : String) :
    ∀ (tr : Tracker) (fs fs' : FsMap),
      (fsGet fs D).sourceExists = false →
      retainAll tr fs = (fs', none) →
      fsGet fs' D = fsGet fs D := by
  intro tr
  induction tr with
  | nil =>
    intro fs fs' _ h
    injection h with h1 h2
    rw [← h1]
  | cons p rest ih =>
    obtain ⟨d, e⟩ := p
    intro fs fs' hsrc h
    rw [retainAll] at h
    cases hr : retainDataset e.2 (fsGet fs d) with
    | ok st =>
      rw [hr] at h
      by_cases hdD : d = D
      · rw [hdD, retainDataset_noSource e.2 (fsGet fs D) hsrc] at hr
        cases hr
      · have := ih (aset fs d st) fs'
          (by rw [fsGet_aset_ne fs d D st hdD]; exact hsrc) h
        rw [this, fsGet_aset_ne fs d D st hdD]
    | error err =>
      rw [hr] at h
      injection h with h1 h2
      cases h2

/-- A successful retention pass applies retainDataset exactly once to the
    first tracker binding of a dataset, on its initial directory state. -/
theorem retainAll_get (D : String) (sc : ℚ) (oi : Option Nat) :
    ∀ (tr : Tracker) (fs fs' : FsMap),
      slookup tr D = some (sc, oi) →
      retainAll tr fs = (fs', none) →
      ∃ st', retainDataset oi (fsGet fs D) = Except.ok st' ∧ fsGet fs' D = st' := by
  intro tr
  induction tr with
  | nil =>
    intro fs fs' hsl _
    simp [slookup] at hsl
  | cons p rest ih =>
    obtain ⟨d, e⟩ := p
    intro fs fs' hsl h
    rw [retainAll] at h
    by_cases hdD : d = D
    · subst hdD
      rw [slookup, if_pos rfl] at hsl
      have he : e = (sc, oi) := Option.some.inj hsl
      have he2 : e.2 = oi := by rw [he]
      cases hr : retainDataset e.2 (fsGet fs d) with
      | ok st =>
        rw [hr] at h
        refine ⟨st, ?_, ?_⟩
        · rw [← he2]
          exact hr
        · have hst : (fsGet (aset fs d st) d).sourceExists = false := by
            rw [fsGet_aset_self]
            exact (retainDataset_ok e.2 (fsGet fs d) st hr).2.1
          have := retainAll_stuck d rest (aset fs d st) fs' hst h
          rw [this, fsGet_aset_self]
      | error err =>
        rw [hr] at h
        injection h with h1 h2
        cases h2
    · rw [slookup, if_neg hdD] at hsl
      cases hr : retainDataset e.2 (fsGet fs d) with
      | ok st =>
        rw [hr] at h
        obtain ⟨st', ha, hb⟩ := ih (aset fs d st) fs' hsl h
        rw [fsGet_aset_ne fs d D st hdD] at ha
        exact ⟨st', ha, hb⟩
      | error err =>
        rw [hr] at h
        injection h with h1 h2
        cases h2

/-! Claim C4. -/

/-- C4 counterexample: a first retention of a checkpoint directory holding the
    best pipe succeeds and removes the directory; re-running retention on the
    retained state raises FileNotFoundError (os.listdir on the removed
    directory), so re-retention is an error, not a no-op. -/
theorem claim_C4_counterexample :
    retainDataset (some 1) ⟨true, [⟨"pipe_1", FKind.kdir, 0⟩], false, []⟩ =
      Except.ok ⟨false, [], true, [⟨"pipe_1", FKind.kdir, 0⟩]⟩ ∧
    retainDataset (some 1) ⟨false, [], true, [⟨"pipe_1", FKind.kdir, 0⟩]⟩ =
      Except.error FsError.fileNotFound := by
  exact ⟨rfl, rfl⟩

/-- C4 (amended): re-running the retention step on a checkpoint tree that a
    first retention already processed raises FileNotFoundError, because the
    per-dataset checkpoint directory was removed and the step lists it
    unconditionally; it never completes as a no-op. -/
theorem claim_C4_amended (bi bi2 : Option Nat) (st st' : DirState)
    (h : retainDataset bi st = Except.ok st') :
    retainDataset bi2 st' = Except.error FsError.fileNotFound :=
  retainDataset_noSource bi2 st' (retainDataset_ok bi st st' h).2.1

/-- C4 witness: the amended claim on a concrete two-entry directory. -/
theorem claim_C4_witness :
    retainDataset (some 2)
      (⟨false, [], true,
        [⟨"pipe_2", FKind.kdir, 7⟩, ⟨"stats.txt", FKind.kfile, 8⟩]⟩ : DirState) =
      Except.error FsError.fileNotFound :=
  claim_C4_amended (some 2) (some 2)
    ⟨true, [⟨"pipe_2", FKind.kdir, 7⟩, ⟨"stats.txt", FKind.kfile, 8⟩], false, []⟩
    ⟨false, [], true, [⟨"pipe_2", FKind.kdir, 7⟩, ⟨"stats.txt", FKind.kfile, 8⟩]⟩
    (by rfl)

/-! Claim C5. -/

/-- C5: during a successful retention of a source listing with distinct
    names, every entry whose name does not start with the pipe prefix is
    moved into the best-pipe directory exactly when no like-named entry is
    already there: afterwards that name is carried at the destination by the
    entry itself, exactly once, when there was no collision, and by exactly
    the original like-named destination entries (never with the source entry
    nested or duplicated) when there was one. A like-named directory at the
    destination makes the pass raise, so under success any collision is a
    regular file and the source entry is simply left to be deleted. -/
theorem claim_C5 (bi : Option Nat) (st st' : DirState) (e : FsEntry)
    (hnd : (st.source.map FsEntry.name).Nodup)
    (hok : retainDataset bi st = Except.ok st')
    (he : e ∈ st.source)
    (hep : startsWithPipe e.name = false) :
    entriesNamed st'.dest e.name =
      (if hasEntry (if st.destExists then st.dest else []) e.name = true
       then entriesNamed (if st.destExists then st.dest else []) e.name
       else [e]) := by
  obtain ⟨_, _, _, _, hloop⟩ := retainDataset_ok bi st st' hok
  exact retLoop_entry (pipeName bi) (startsWithPipe_pipeName bi) st.source _ st'.dest
    hnd hloop e he hep

/-- Directory state of the concrete C5 witness. -/
def c5wst : DirState :=
  ⟨true, [⟨"data.csv", FKind.kfile, 1⟩, ⟨"pipe_2", FKind.kdir, 2⟩], false, []⟩

/-- C5 witness: with an absent best-pipe directory, the shared artifact
    data.csv ends up at the destination exactly once. -/
theorem claim_C5_witness :
    entriesNamed
      ((⟨false, [], true,
        [⟨"data.csv", FKind.kfile, 1⟩, ⟨"pipe_2", FKind.kdir, 2⟩]⟩ : DirState)).dest
      "data.csv" =
      (if hasEntry (if c5wst.destExists then c5wst.dest else []) "data.csv" = true
       then entriesNamed (if c5wst.destExists then c5wst.dest else []) "data.csv"
       else [⟨"data.csv", FKind.kfile, 1⟩]) :=
  claim_C5 (some 2) c5wst
    ⟨false, [], true, [⟨"data.csv", FKind.kfile, 1⟩, ⟨"pipe_2", FKind.kdir, 2⟩]⟩
    ⟨"data.csv", FKind.kfile, 1⟩ (by decide) (by rfl) (by decide) (by decide)

/-! Claim C2. -/

/-- Instances of the concrete C2 counterexample. -/
def c2cfg : RunCfg := ⟨"train", false, 5, true, some "m"⟩

def c2cands : List Cand := [⟨"dx", "r", ["m"], [("test", [("m", -2)])], []⟩]

def c2fs : FsMap := [("dx", ⟨true, [⟨"pipe_1", FKind.kdir, 0⟩], false, []⟩)]

/-- C2 counterexample: a run whose single candidate scores -2 (not above the
    -1 sentinel) completes, loop and retention both error-free, with
    best_candidate_index = none; retention removes the checkpoint directory
    together with the best candidate's pipe_1 artifact and leaves the
    best-pipe directory empty, containing no pipe directory at all, refuting
    the claimed containment of a directory for the tracked best candidate. -/
theorem claim_C2_counterexample :
    (runModel c2cfg c2cands c2fs).run.error = none ∧
    (runModel c2cfg c2cands c2fs).fsError = none ∧
    slookup (runModel c2cfg c2cands c2fs).run.tracker "dx" =
      some ((-1 : ℚ), (none : Option Nat)) ∧
    (fsGet (runModel c2cfg c2cands c2fs).fs "dx").sourceExists = false ∧
    (fsGet (runModel c2cfg c2cands c2fs).fs "dx").dest = [] := by
  exact ⟨by decide, by decide, by decide, by decide, by decide⟩

/-- C2 (amended): after run() completes with best-only retention enabled
    (candidate loop and retention pass both error-free), every dataset D
    tracked with a defined best index k whose checkpoint directory held an
    entry named pipe_k at retention time (as save_config guarantees when
    cross-validation is disabled) ends with its checkpoint directory removed,
    hence no pipe-prefixed directory under it, and with an entry named pipe_k
    inside the sibling best-pipe directory. When the best index is undefined
    (no candidate beat the -1 sentinel) no promotion happens. -/
theorem claim_C2_amended (cfg : RunCfg) (cands : List Cand) (fs0 : FsMap)
    (D : String) (sc : ℚ) (k : Nat)
    (hsb : cfg.save_best = true)
    (hok : (runModel cfg cands fs0).run.error = none)
    (hfs : (runModel cfg cands fs0).fsError = none)
    (htr : slookup (runModel cfg cands fs0).run.tracker D = some (sc, some k))
    (hsrc : hasEntry (fsGet fs0 D).source (pipeName (some k)) = true) :
    (fsGet (runModel cfg cands fs0).fs D).sourceExists = false ∧
    (fsGet (runModel cfg cands fs0).fs D).source = [] ∧
    hasEntry (fsGet (runModel cfg cands fs0).fs D).dest (pipeName (some k)) = true := by
  have hrun : (runModel cfg cands fs0).run = runLoop cfg cands := by
    unfold runModel
    split <;> rfl
  rw [hrun] at hok htr
  have hM : runModel cfg cands fs0 =
      ⟨runLoop cfg cands, (retainAll (runLoop cfg cands).tracker fs0).1,
       (retainAll (runLoop cfg cands).tracker fs0).2⟩ := by
    unfold runModel
    rw [if_pos ⟨hok, hsb⟩]
  rw [hM] at hfs ⊢
  have hret : retainAll (runLoop cfg cands).tracker fs0 =
      ((retainAll (runLoop cfg cands).tracker fs0).1, none) := by
    have hfs' : (retainAll (runLoop cfg cands).tracker fs0).2 = none := hfs
    rw [← hfs']
  obtain ⟨st', ha, hb⟩ :=
    retainAll_get D sc (some k) (runLoop cfg cands).tracker fs0
      (retainAll (runLoop cfg cands).tracker fs0).1 htr hret
  obtain ⟨_, hs1, hs2, _, hloop⟩ := retainDataset_ok (some k) (fsGet fs0 D) st' ha
  have hgoal : fsGet
      (FullOut.mk (runLoop cfg cands) (retainAll (runLoop cfg cands).tracker fs0).1
        (retainAll (runLoop cfg cands).tracker fs0).2).fs D = st' := hb
  rw [hgoal]
  refine ⟨hs1, hs2, ?_⟩
  exact retLoop_best_in (pipeName (some k)) (startsWithPipe_pipeName (some k))
    (fsGet fs0 D).source _ st'.dest hloop
    (hasEntry_exists (fsGet fs0 D).source (pipeName (some k)) hsrc)

/-- Instances of the concrete C2 witness. -/
def c2wcfg : RunCfg := ⟨"train", false, 5, true, some "m"⟩

def c2wcands : List Cand := [⟨"dz", "r", ["m"], [("test", [("m", 4)])], []⟩]

def c2wfs : FsMap := [("dz", ⟨true, [⟨"pipe_1", FKind.kdir, 0⟩], false, []⟩)]

/-- C2 witness: a run whose candidate scores 4 promotes pipe_1 into the
    best-pipe directory and removes the checkpoint directory. -/
theorem claim_C2_witness :
    (fsGet (runModel c2wcfg c2wcands c2wfs).fs "dz").sourceExists = false ∧
    (fsGet (runModel c2wcfg c2wcands c2wfs).fs "dz").source = [] ∧
    hasEntry (fsGet (runModel c2wcfg c2wcands c2wfs).fs "dz").dest
      (pipeName (some 1)) = true :=
  claim_C2_amended c2wcfg c2wcands c2wfs "dz" 4 1 (by decide) (by decide) (by decide)
    (by decide) (by decide)

end PM
